import Mathlib

/-!
Shallow embedding of the PythonGIS tutorial workflow
(`src/L2/2_projections.ipynb`, `src/L4/1-geometric-operations.ipynb`,
`src/Raster/plotting-raster.ipynb`).

The notebooks are glue code around external geospatial libraries
(geopandas / pyproj / shapely / rasterio).  The only function defined in
the repository itself is the raster band `normalize` helper, which is
translated from the source below.  Every other operation (`to_crs`,
`overlay`, `dissolve`, `simplify`, `CRS.to_epsg`) is a call into
library code that is not part of the repository, so those operations
are modelled from the specification, as flagged in their doc comments.

Real-valued coordinates and cell values are modelled as rationals.
-/

/-- A planar coordinate pair.  Real coordinates are modelled as rationals. -/
abbrev Point := Rat × Rat

/-- Modelled from the spec: a geometry (point, line, or polygon, possibly
multi-part) is modelled as its finite sequence of vertices; the external
geometry engine (shapely/GEOS) that interprets them as curves and areas is
outside the repository, so set-theoretic operations are modelled on the
finite vertex sets. -/
abbrev Geometry := List Point

/-- A CRS descriptor: an EPSG integer code, a WKT string, or a PROJ
parameter string (spec, section 3, "CRS Descriptor"). -/
inductive CRS where
  | epsg (code : Nat)
  | wkt (s : String)
  | proj4 (s : String)
  deriving DecidableEq, Repr

/-- One record of a geometry collection: a geometry paired with a mapping
of attribute name to value (spec, section 3, "Geometry Collection").
Attribute values are modelled as integers (the notebook attributes, such
as the `car_r_t` travel times, are integer-valued). -/
structure Row where
  geom : Geometry
  attrs : List (String × Int)
  deriving DecidableEq

/-- A geometry collection with an optional CRS descriptor; the CRS is
absent for collections built from raw GeoJSON features. -/
structure GeoDataFrame where
  rows : List Row
  crs : Option CRS
  deriving DecidableEq

/- ------------------------------------------------------------------
Raster band normalization, translated from the source
(`src/Raster/plotting-raster.ipynb`):

    def normalize(array):
        """Normalizes numpy arrays into scale 0.0 - 1.0"""
        array_min, array_max = array.min(), array.max()
        return ((array - array_min)/(array_max - array_min))

A raster band is modelled as the list of its cell values (numpy
reductions `.min()`/`.max()` range over all cells, and the arithmetic is
cellwise, so the grid shape is irrelevant).
------------------------------------------------------------------ -/

/-- Numpy `array.min()` on a raster band: the least cell value (0 on an empty
band, which rasterio never produces). -/
def arrMin (a : List Rat) : Rat :=
  match a with
  | [] => 0
  | x :: xs => xs.foldl min x

/-- Numpy `array.max()` on a raster band: the greatest cell value. -/
def arrMax (a : List Rat) : Rat :=
  match a with
  | [] => 0
  | x :: xs => xs.foldl max x

namespace Raster

/-- The `normalize` helper of `plotting-raster.ipynb`, translated from the
source: subtract the band minimum and divide by the range, cellwise.
The division is unguarded, exactly as in the source. -/
def normalize (array : List Rat) : List Rat :=
  let array_min := arrMin array
  let array_max := arrMax array
  array.map (fun x => (x - array_min) / (array_max - array_min))

end Raster

/- Fold lemmas for `arrMin` / `arrMax`. -/

theorem foldl_min_le_init (xs : List Rat) (x : Rat) : xs.foldl min x ≤ x := by
  induction xs generalizing x with
  | nil => exact le_refl x
  | cons y ys ih =>
      exact le_trans (ih (min x y)) (min_le_left x y)

theorem foldl_min_le_mem (xs : List Rat) (x : Rat) :
    ∀ y ∈ xs, xs.foldl min x ≤ y := by
  induction xs generalizing x with
  | nil => intro y hy; cases hy
  | cons z zs ih =>
      intro y hy
      rcases List.mem_cons.mp hy with h | h
      · subst h
        exact le_trans (foldl_min_le_init zs (min x y)) (min_le_right x y)
      · exact ih (min x z) y h

theorem foldl_min_mem (xs : List Rat) (x : Rat) :
    xs.foldl min x = x ∨ xs.foldl min x ∈ xs := by
  induction xs generalizing x with
  | nil => exact Or.inl rfl
  | cons y ys ih =>
      rcases ih (min x y) with h | h
      · rcases min_cases x y with ⟨hmin, _⟩ | ⟨hmin, _⟩
        · exact Or.inl (by simpa [List.foldl, hmin] using h)
        · refine Or.inr (List.mem_cons.mpr (Or.inl ?_))
          simpa [List.foldl, hmin] using h
      · exact Or.inr (List.mem_cons.mpr (Or.inr h))

theorem init_le_foldl_max (xs : List Rat) (x : Rat) : x ≤ xs.foldl max x := by
  induction xs generalizing x with
  | nil => exact le_refl x
  | cons y ys ih =>
      exact le_trans (le_max_left x y) (ih (max x y))

theorem mem_le_foldl_max (xs : List Rat) (x : Rat) :
    ∀ y ∈ xs, y ≤ xs.foldl max x := by
  induction xs generalizing x with
  | nil => intro y hy; cases hy
  | cons z zs ih =>
      intro y hy
      rcases List.mem_cons.mp hy with h | h
      · subst h
        exact le_trans (le_max_right x y) (init_le_foldl_max zs (max x y))
      · exact ih (max x z) y h

theorem foldl_max_mem (xs : List Rat) (x : Rat) :
    xs.foldl max x = x ∨ xs.foldl max x ∈ xs := by
  induction xs generalizing x with
  | nil => exact Or.inl rfl
  | cons y ys ih =>
      rcases ih (max x y) with h | h
      · rcases max_cases x y with ⟨hmax, _⟩ | ⟨hmax, _⟩
        · exact Or.inl (by simpa [List.foldl, hmax] using h)
        · refine Or.inr (List.mem_cons.mpr (Or.inl ?_))
          simpa [List.foldl, hmax] using h
      · exact Or.inr (List.mem_cons.mpr (Or.inr h))

theorem arrMin_le (a : List Rat) : ∀ y ∈ a, arrMin a ≤ y := by
  cases a with
  | nil => intro y hy; cases hy
  | cons x xs =>
      intro y hy
      rcases List.mem_cons.mp hy with h | h
      · subst h; exact foldl_min_le_init xs y
      · exact foldl_min_le_mem xs x y h

theorem le_arrMax (a : List Rat) : ∀ y ∈ a, y ≤ arrMax a := by
  cases a with
  | nil => intro y hy; cases hy
  | cons x xs =>
      intro y hy
      rcases List.mem_cons.mp hy with h | h
      · subst h; exact init_le_foldl_max xs y
      · exact mem_le_foldl_max xs x y h

theorem arrMin_mem (a : List Rat) (h : a ≠ []) : arrMin a ∈ a := by
  cases a with
  | nil => exact absurd rfl h
  | cons x xs =>
      rcases foldl_min_mem xs x with h' | h'
      · exact List.mem_cons.mpr (Or.inl h')
      · exact List.mem_cons.mpr (Or.inr h')

theorem arrMax_mem (a : List Rat) (h : a ≠ []) : arrMax a ∈ a := by
  cases a with
  | nil => exact absurd rfl h
  | cons x xs =>
      rcases foldl_max_mem xs x with h' | h'
      · exact List.mem_cons.mpr (Or.inl h')
      · exact List.mem_cons.mpr (Or.inr h')

/- `arrMin` and `arrMax` commute with maps that distribute over min/max. -/

theorem foldl_min_map (f : Rat → Rat) (hf : ∀ a b, f (min a b) = min (f a) (f b)) :
    ∀ (xs : List Rat) (x : Rat), (xs.map f).foldl min (f x) = f (xs.foldl min x) := by
  intro xs
  induction xs with
  | nil => intro x; rfl
  | cons y ys ih =>
      intro x
      simp only [List.map, List.foldl]
      rw [← hf, ih]

theorem foldl_max_map (f : Rat → Rat) (hf : ∀ a b, f (max a b) = max (f a) (f b)) :
    ∀ (xs : List Rat) (x : Rat), (xs.map f).foldl max (f x) = f (xs.foldl max x) := by
  intro xs
  induction xs with
  | nil => intro x; rfl
  | cons y ys ih =>
      intro x
      simp only [List.map, List.foldl]
      rw [← hf, ih]

theorem arrMin_map (f : Rat → Rat) (hf : ∀ a b, f (min a b) = min (f a) (f b))
    (a : List Rat) (h : a ≠ []) : arrMin (a.map f) = f (arrMin a) := by
  cases a with
  | nil => exact absurd rfl h
  | cons x xs => exact foldl_min_map f hf xs x

theorem arrMax_map (f : Rat → Rat) (hf : ∀ a b, f (max a b) = max (f a) (f b))
    (a : List Rat) (h : a ≠ []) : arrMax (a.map f) = f (arrMax a) := by
  cases a with
  | nil => exact absurd rfl h
  | cons x xs => exact foldl_max_map f hf xs x

/- The affine rescaling used by `normalize` distributes over min and max
when the range is positive. -/

theorem rescale_min (m d : Rat) (hd : 0 < d) (a b : Rat) :
    (min a b - m) / d = min ((a - m) / d) ((b - m) / d) := by
  rcases le_total a b with h | h
  · rw [min_eq_left h, min_eq_left]
    exact div_le_div_of_nonneg_right (by linarith) hd.le |>.trans_eq rfl
  · rw [min_eq_right h, min_eq_right]
    exact div_le_div_of_nonneg_right (by linarith) hd.le |>.trans_eq rfl

theorem rescale_max (m d : Rat) (hd : 0 < d) (a b : Rat) :
    (max a b - m) / d = max ((a - m) / d) ((b - m) / d) := by
  rcases le_total a b with h | h
  · rw [max_eq_right h, max_eq_right]
    exact div_le_div_of_nonneg_right (by linarith) hd.le |>.trans_eq rfl
  · rw [max_eq_left h, max_eq_left]
    exact div_le_div_of_nonneg_right (by linarith) hd.le |>.trans_eq rfl

theorem arrMin_lt_arrMax (a : List Rat) (hne : ∃ x ∈ a, ∃ y ∈ a, x ≠ y) :
    arrMin a < arrMax a := by
  obtain ⟨x, hx, y, hy, hxy⟩ := hne
  by_contra h
  push_neg at h
  apply hxy
  have h1 := arrMin_le a x hx
  have h2 := le_arrMax a x hx
  have h3 := arrMin_le a y hy
  have h4 := le_arrMax a y hy
  linarith

/-- C10: the raster band normalization helper
`normalize(array) = (array - min) / (max - min)` returns, for every band
whose cell values are not all equal, an array whose minimum is exactly 0
and maximum is exactly 1 with every cell in `[0, 1]`; the division is
unguarded, so for a nonempty band whose cells are all equal the
denominator `max - min` is zero and the result is not a normalized array
(its maximum is not 1). -/
theorem normalize_spec (a : List Rat) (hne : ∃ x ∈ a, ∃ y ∈ a, x ≠ y) :
    arrMin (Raster.normalize a) = 0 ∧ arrMax (Raster.normalize a) = 1 ∧
    (∀ x ∈ Raster.normalize a, 0 ≤ x ∧ x ≤ 1) ∧
    (∀ b : List Rat, b ≠ [] → (∀ x ∈ b, ∀ y ∈ b, x = y) →
      arrMax b - arrMin b = 0 ∧ arrMax (Raster.normalize b) ≠ 1) := by
  have hanil : a ≠ [] := by
    rintro rfl
    obtain ⟨x, hx, -⟩ := hne
    cases hx
  have hlt := arrMin_lt_arrMax a hne
  set m := arrMin a with hm
  set M := arrMax a with hM
  have hd : 0 < M - m := by linarith
  have hcommin : ∀ x y : Rat,
      (min x y - m) / (M - m) = min ((x - m) / (M - m)) ((y - m) / (M - m)) :=
    rescale_min m (M - m) hd
  have hcommax : ∀ x y : Rat,
      (max x y - m) / (M - m) = max ((x - m) / (M - m)) ((y - m) / (M - m)) :=
    rescale_max m (M - m) hd
  have hnorm : Raster.normalize a = a.map (fun x => (x - m) / (M - m)) := rfl
  refine ⟨?_, ?_, ?_, ?_⟩
  · rw [hnorm, arrMin_map _ hcommin a hanil, ← hm, sub_self, zero_div]
  · rw [hnorm, arrMax_map _ hcommax a hanil, ← hM, div_self (ne_of_gt hd)]
  · intro x hx
    rw [hnorm] at hx
    obtain ⟨z, hz, rfl⟩ := List.mem_map.mp hx
    have h1 := arrMin_le a z hz
    have h2 := le_arrMax a z hz
    constructor
    · exact div_nonneg (by linarith) (le_of_lt hd)
    · rw [div_le_one hd]; linarith
  · intro b hb hall
    have heq : arrMax b = arrMin b :=
      hall _ (arrMax_mem b hb) _ (arrMin_mem b hb)
    have hzero : arrMax b - arrMin b = 0 := by rw [heq, sub_self]
    refine ⟨hzero, ?_⟩
    have hbn : Raster.normalize b ≠ [] := by
      unfold Raster.normalize
      simpa using hb
    have hmem := arrMax_mem (Raster.normalize b) hbn
    obtain ⟨z, hz, hzeq⟩ := List.mem_map.mp hmem
    rw [← hzeq, hzero, div_zero]
    decide

/-- Witness for C10 at the band `[0, 2, 1]`: its normalization has
minimum 0, maximum 1, all cells in `[0, 1]`, and the all-equal clause
holds for every constant band. -/
theorem normalize_spec_witness :
    arrMin (Raster.normalize [(0 : Rat), 2, 1]) = 0 ∧
    arrMax (Raster.normalize [(0 : Rat), 2, 1]) = 1 ∧
    (∀ x ∈ Raster.normalize [(0 : Rat), 2, 1], 0 ≤ x ∧ x ≤ 1) ∧
    (∀ b : List Rat, b ≠ [] → (∀ x ∈ b, ∀ y ∈ b, x = y) →
      arrMax b - arrMin b = 0 ∧ arrMax (Raster.normalize b) ≠ 1) :=
  normalize_spec [(0 : Rat), 2, 1]
    ⟨0, by decide, 2, by decide, by decide⟩

/- ------------------------------------------------------------------
CRS transformer (`to_crs` of `src/L2/2_projections.ipynb`).

The transformation itself is performed by an external projection library
whose mathematics the spec places out of scope, so the per-CRS planar
mappings are modelled abstractly as invertible affine maps into one
common frame.
------------------------------------------------------------------ -/

/-- Modelled from the spec: the registry of recognized EPSG codes (the
spec calls a target "recognized" when its identifier names a registered
CRS).  The codes used by the notebooks, plus 3505, are registered. -/
def knownEpsg : List Nat := [4326, 3035, 3879, 3505, 2263, 32633]

/-- Modelled from the spec: whether a target CRS identifier is
recognized: a registered EPSG code, or a nonempty WKT / PROJ string. -/
def recognized : CRS → Bool
  | CRS.epsg n => knownEpsg.contains n
  | CRS.wkt s => !s.isEmpty
  | CRS.proj4 s => !s.isEmpty

/-- Modelled from the spec: the scale of a CRS's planar mapping.  Always
positive, so every mapping is invertible; the exact projection
mathematics is delegated to the external projection library (spec,
section 1, non-goals). -/
def crsScale : CRS → Rat
  | CRS.epsg n => (n : Rat) + 1
  | CRS.wkt s => (s.length : Rat) + 1
  | CRS.proj4 s => (s.length : Rat) + 2

/-- Modelled from the spec: the offset of a CRS's planar mapping. -/
def crsShift : CRS → Rat
  | CRS.epsg n => (n : Rat)
  | CRS.wkt s => (s.length : Rat)
  | CRS.proj4 s => (s.length : Rat) + 1

theorem crsScale_pos (c : CRS) : 0 < crsScale c := by
  cases c with
  | epsg n =>
      have : (0 : Rat) ≤ (n : Rat) := Nat.cast_nonneg n
      simp only [crsScale]; linarith
  | wkt s =>
      have : (0 : Rat) ≤ (s.length : Rat) := Nat.cast_nonneg _
      simp only [crsScale]; linarith
  | proj4 s =>
      have : (0 : Rat) ≤ (s.length : Rat) := Nat.cast_nonneg _
      simp only [crsScale]; linarith

/-- A CRS's planar mapping into the common frame. -/
def toCommon (c : CRS) (p : Point) : Point :=
  (p.1 * crsScale c + crsShift c, p.2 * crsScale c + crsShift c)

/-- The inverse mapping, out of the common frame. -/
def fromCommon (c : CRS) (p : Point) : Point :=
  ((p.1 - crsShift c) / crsScale c, (p.2 - crsShift c) / crsScale c)

/-- Coordinate transformation of one point from `src` to `tgt`. -/
def transformPoint (src tgt : CRS) (p : Point) : Point :=
  fromCommon tgt (toCommon src p)

/-- Transforming a record transforms its geometry's coordinates and
leaves its attributes unchanged. -/
def transformRow (src tgt : CRS) (r : Row) : Row :=
  { geom := r.geom.map (transformPoint src tgt), attrs := r.attrs }

/-- Modelled from the spec: geopandas `GeoDataFrame.to_crs`.  Fails when
the source CRS is undefined or the target identifier is unrecognized;
otherwise returns a new collection with every coordinate transformed and
the CRS descriptor updated to the given target (spec, section 4.1). -/
def to_crs (df : GeoDataFrame) (target : CRS) : Except String GeoDataFrame :=
  match df.crs with
  | none => Except.error "source CRS is undefined: assign a CRS before transforming"
  | some src =>
      if recognized target then
        Except.ok { rows := df.rows.map (transformRow src target), crs := some target }
      else
        Except.error "target CRS identifier is not recognized"

/-- Modelled from the spec: `GeoDataFrame.from_features` builds a
collection from fetched GeoJSON features (geometry plus properties);
GeoJSON carries no CRS, so the result's CRS descriptor is absent
(`2_projections.ipynb`, the WFS fetch). -/
def from_features (feats : List Row) : GeoDataFrame :=
  { rows := feats, crs := none }

/-- The notebook's explicit CRS assignment `data.crs = CRS.from_epsg(3879)`. -/
def set_crs (df : GeoDataFrame) (c : CRS) : GeoDataFrame :=
  { df with crs := some c }

theorem transformPoint_roundtrip (A B : CRS) (p : Point) :
    transformPoint B A (transformPoint A B p) = p := by
  have hA := crsScale_pos A
  have hB := crsScale_pos B
  have hA0 : crsScale A ≠ 0 := ne_of_gt hA
  have hB0 : crsScale B ≠ 0 := ne_of_gt hB
  unfold transformPoint fromCommon toCommon
  apply Prod.ext
  · dsimp only
    field_simp
  · dsimp only
    field_simp

theorem transformRow_roundtrip (A B : CRS) (r : Row) :
    transformRow B A (transformRow A B r) = r := by
  cases r with
  | mk g attrs =>
      simp [transformRow, List.map_map, Function.comp_def, transformPoint_roundtrip]

/-- C2: transforming a collection from CRS A to CRS B with `to_crs` and
then back to A succeeds and reproduces the original collection exactly
(coordinate values and CRS descriptor), hence in particular within any
projection-precision tolerance. -/
theorem to_crs_roundtrip (df : GeoDataFrame) (A B : CRS)
    (hA : df.crs = some A) (hrA : recognized A = true)
    (hrB : recognized B = true) :
    ∃ d1 d2 : GeoDataFrame,
      to_crs df B = Except.ok d1 ∧ to_crs d1 A = Except.ok d2 ∧ d2 = df := by
  refine ⟨{ rows := df.rows.map (transformRow A B), crs := some B },
          { rows := (df.rows.map (transformRow A B)).map (transformRow B A),
            crs := some A }, ?_, ?_, ?_⟩
  · simp [to_crs, hA, hrB]
  · simp [to_crs, hrA]
  · cases df with
    | mk rows crs =>
        simp only at hA
        simp only [hA]
        simp [List.map_map, Function.comp_def, transformRow_roundtrip]

/-- Witness for C2: the Europe borders sample in EPSG 4326, sent to EPSG
3035 and back, is reproduced exactly. -/
theorem to_crs_roundtrip_witness :
    ∃ d1 d2 : GeoDataFrame,
      to_crs { rows := [{ geom := [((24 : Rat), (61 : Rat))], attrs := [("TZID", 1)] }],
               crs := some (CRS.epsg 4326) } (CRS.epsg 3035) = Except.ok d1 ∧
      to_crs d1 (CRS.epsg 4326) = Except.ok d2 ∧
      d2 = { rows := [{ geom := [((24 : Rat), (61 : Rat))], attrs := [("TZID", 1)] }],
             crs := some (CRS.epsg 4326) } :=
  to_crs_roundtrip
    { rows := [{ geom := [((24 : Rat), (61 : Rat))], attrs := [("TZID", 1)] }],
      crs := some (CRS.epsg 4326) }
    (CRS.epsg 4326) (CRS.epsg 3035) rfl (by decide) (by decide)

/-- C9: the CRS transformation is deterministic: two runs of `to_crs` on
the same collection with the same target produce identical results
(identical coordinate values and identical CRS descriptors). -/
theorem to_crs_deterministic (df : GeoDataFrame) (t : CRS)
    (o1 o2 : Except String GeoDataFrame)
    (h1 : to_crs df t = o1) (h2 : to_crs df t = o2) : o1 = o2 := by
  rw [← h1, ← h2]

/-- Witness for C9 at a concrete collection and target. -/
theorem to_crs_deterministic_witness :
    to_crs { rows := [], crs := some (CRS.epsg 4326) } (CRS.epsg 3035) =
      to_crs { rows := [], crs := some (CRS.epsg 4326) } (CRS.epsg 3035) :=
  to_crs_deterministic { rows := [], crs := some (CRS.epsg 4326) }
    (CRS.epsg 3035) _ _ rfl rfl

/-- C6: `to_crs` fails whenever the source CRS is undefined or the
target identifier is unrecognized; a collection built from fetched
GeoJSON features carries no CRS, so reprojecting it fails until a CRS
descriptor is explicitly assigned, after which it succeeds. -/
theorem to_crs_error_conditions :
    (∀ (df : GeoDataFrame) (t : CRS), df.crs = none →
      ∃ e, to_crs df t = Except.error e) ∧
    (∀ (df : GeoDataFrame) (t : CRS), recognized t = false →
      ∃ e, to_crs df t = Except.error e) ∧
    (∀ (feats : List Row) (t : CRS),
      (from_features feats).crs = none ∧
      ∃ e, to_crs (from_features feats) t = Except.error e) ∧
    (∀ (feats : List Row) (c t : CRS), recognized t = true →
      ∃ d, to_crs (set_crs (from_features feats) c) t = Except.ok d) := by
  refine ⟨?_, ?_, ?_, ?_⟩
  · intro df t h
    simp [to_crs, h]
  · intro df t h
    cases hc : df.crs with
    | none => simp [to_crs, hc]
    | some src => simp [to_crs, hc, h]
  · intro feats t
    refine ⟨rfl, ?_⟩
    simp [to_crs, from_features]
  · intro feats c t h
    simp [to_crs, set_crs, from_features, h]

/-- Witness for C6: the WFS population grid scenario of the projections
notebook, with one feature row: reprojecting straight after
`from_features` fails, and succeeds after assigning EPSG 3879. -/
theorem to_crs_error_conditions_witness :
    (∃ e, to_crs (from_features [{ geom := [((25 : Rat), (60 : Rat))], attrs := [("asukkaita", 5)] }])
        (CRS.epsg 4326) = Except.error e) ∧
    (∃ d, to_crs (set_crs (from_features [{ geom := [((25 : Rat), (60 : Rat))], attrs := [("asukkaita", 5)] }])
        (CRS.epsg 3879)) (CRS.epsg 4326) = Except.ok d) :=
  ⟨(to_crs_error_conditions.2.2.1
      [{ geom := [((25 : Rat), (60 : Rat))], attrs := [("asukkaita", 5)] }]
      (CRS.epsg 4326)).2,
   to_crs_error_conditions.2.2.2
      [{ geom := [((25 : Rat), (60 : Rat))], attrs := [("asukkaita", 5)] }]
      (CRS.epsg 3879) (CRS.epsg 4326) (by decide)⟩

/- ------------------------------------------------------------------
The reprojection step of the projections workflow
(`src/L2/2_projections.ipynb`).  The tutorial text announces EPSG 3035
(ETRS-LAEA) as the target and later states that the resulting data's
EPSG code is 3035, but the code cell executes
`data = data.to_crs(epsg=3505)`.
------------------------------------------------------------------ -/

/-- A sample of the Europe borders layer as the workflow loads it:
longitude/latitude geometries with the WGS84 CRS (EPSG 4326). -/
def europeBorders : GeoDataFrame :=
  { rows := [{ geom := [((24 : Rat), (61 : Rat)), ((25 : Rat), (62 : Rat))],
               attrs := [("TZID", 1)] }],
    crs := some (CRS.epsg 4326) }

/-- The target the reprojection cell actually requests, exactly as
written in the source: `data.to_crs(epsg=3505)`. -/
def projectionsWorkflowTarget : CRS := CRS.epsg 3505

/-- The result of the workflow's reprojection step. -/
def projectionsWorkflowResult : Except String GeoDataFrame :=
  to_crs europeBorders projectionsWorkflowTarget

/-- The collection the reprojection step produces. -/
def projectionsWorkflowOutput : GeoDataFrame :=
  { rows := europeBorders.rows.map (transformRow (CRS.epsg 4326) (CRS.epsg 3505)),
    crs := some (CRS.epsg 3505) }

/-- C1: the general `to_crs` contract holds in the model (the output's
CRS descriptor equals the requested target and the coordinates are
transformed), but the projections workflow's reprojection cell requests
EPSG 3505, so its result's CRS descriptor is EPSG 3505 and not the EPSG
3035 that the tutorial names as the target: the code contradicts its own
narrative. -/
theorem projections_workflow_crs_bug :
    (∀ (df : GeoDataFrame) (src tgt : CRS) (d : GeoDataFrame),
      df.crs = some src → to_crs df tgt = Except.ok d →
      d.crs = some tgt ∧ d.rows = df.rows.map (transformRow src tgt)) ∧
    (∃ d, projectionsWorkflowResult = Except.ok d ∧
      d.crs = some (CRS.epsg 3505) ∧ d.crs ≠ some (CRS.epsg 3035)) := by
  constructor
  · intro df src tgt d hsrc hok
    simp only [to_crs, hsrc] at hok
    by_cases hr : recognized tgt = true
    · rw [if_pos hr] at hok
      cases hok
      exact ⟨rfl, rfl⟩
    · rw [if_neg hr] at hok
      cases hok
  · refine ⟨projectionsWorkflowOutput, ?_, rfl, by decide⟩
    simp [projectionsWorkflowResult, projectionsWorkflowOutput, to_crs,
      europeBorders, projectionsWorkflowTarget]
    decide

/- ------------------------------------------------------------------
Deriving an EPSG code from a CRS description
(pyproj `CRS.to_epsg`, `src/L2/2_projections.ipynb`).
------------------------------------------------------------------ -/

/-- The WKT the workflow's input shapefile carries: it describes the
ETRS89 / LAEA Europe system but omits the registry details that would
identify it outright. -/
def shapefileWkt : String := "ETRS89_LAEA_Europe_without_authority_details"

/-- The CRS of the workflow's input shapefile, an under-specified WKT. -/
def dataShapefileCrs : CRS := CRS.wkt shapefileWkt

/-- Modelled from the spec: the best EPSG match the projection library
finds for a CRS description, with its matching confidence (percent).
A full EPSG descriptor matches itself outright; the workflow's input
shapefile WKT matches EPSG 3035 only with confidence 25 because it is
under-specified; other descriptions have no registered match. -/
def epsgMatch : CRS → Option (Nat × Nat)
  | CRS.epsg n => some (n, 100)
  | CRS.wkt s => if s = shapefileWkt then some (3035, 25) else none
  | CRS.proj4 _ => none

/-- Modelled from the spec: `CRS.to_epsg(min_confidence)` returns the
matched EPSG code when the match's confidence reaches the threshold,
and an absent result (never an exception) otherwise. -/
def to_epsg (c : CRS) (minConfidence : Nat) : Option Nat :=
  match epsgMatch c with
  | none => none
  | some m => if minConfidence ≤ m.2 then some m.1 else none

/-- The default confidence threshold of `to_epsg`, 70 percent. -/
def defaultMinConfidence : Nat := 70

/-- C5: when no EPSG match reaches the default confidence threshold,
`to_epsg` returns an absent result rather than raising (it is a total
function into `Option`); and for the workflow's input shapefile CRS the
call returns nothing at the default threshold but returns EPSG 3035 at
the lowered threshold `min_confidence = 25`. -/
theorem to_epsg_confidence :
    (∀ c : CRS, (∀ m ∈ epsgMatch c, m.2 < defaultMinConfidence) →
      to_epsg c defaultMinConfidence = none) ∧
    to_epsg dataShapefileCrs defaultMinConfidence = none ∧
    to_epsg dataShapefileCrs 25 = some 3035 := by
  refine ⟨?_, by decide, by decide⟩
  intro c h
  cases hm : epsgMatch c with
  | none => simp [to_epsg, hm]
  | some m =>
      have hlt := h m (by simp [hm])
      simp [to_epsg, hm, Nat.not_le.mpr hlt]

/- ------------------------------------------------------------------
Overlay engine (`geopandas.overlay`,
`src/L4/1-geometric-operations.ipynb`).
------------------------------------------------------------------ -/

/-- The operation modes `overlay` accepts, as listed in the notebook. -/
inductive OverlayHow where
  | intersection
  | union
  | difference
  | symmetric_difference
  | identity
  deriving DecidableEq, Repr

/-- Intersection of two geometries on the vertex-set model: the common
part of their vertex sets. -/
def interG (g h : Geometry) : Geometry :=
  g.filter (fun p => decide (p ∈ h))

/-- Difference of two geometries on the vertex-set model. -/
def diffG (g h : Geometry) : Geometry :=
  g.filter (fun p => decide (p ∉ h))

/-- The rows of the intersection overlay: one output row per pair of
input rows with overlapping geometries; the pair's geometries are
clipped to their common part and their attribute mappings merged. -/
def intersectionRows (rows1 rows2 : List Row) : List Row :=
  rows1.flatMap (fun r1 =>
    rows2.filterMap (fun r2 =>
      let g := interG r1.geom r2.geom
      if g.isEmpty then none
      else some { geom := g, attrs := r1.attrs ++ r2.attrs }))

/-- Rows of one side with the other side's extent removed. -/
def differenceRows (rows1 rows2 : List Row) : List Row :=
  rows1.filterMap (fun r1 =>
    let g := rows2.foldl (fun acc r2 => diffG acc r2.geom) r1.geom
    if g.isEmpty then none else some { geom := g, attrs := r1.attrs })

/-- Modelled from the spec: `geopandas.overlay` computes set-theoretic
combinations of two geometry collections per the chosen operation mode
(spec, section 4.2), on the vertex-set geometry model. -/
def overlay (df1 df2 : GeoDataFrame) (how : OverlayHow) : GeoDataFrame :=
  match how with
  | OverlayHow.intersection =>
      { rows := intersectionRows df1.rows df2.rows, crs := df1.crs }
  | OverlayHow.difference =>
      { rows := differenceRows df1.rows df2.rows, crs := df1.crs }
  | OverlayHow.symmetric_difference =>
      { rows := differenceRows df1.rows df2.rows ++ differenceRows df2.rows df1.rows,
        crs := df1.crs }
  | OverlayHow.identity =>
      { rows := intersectionRows df1.rows df2.rows ++ differenceRows df1.rows df2.rows,
        crs := df1.crs }
  | OverlayHow.union =>
      { rows := intersectionRows df1.rows df2.rows ++ differenceRows df1.rows df2.rows
          ++ differenceRows df2.rows df1.rows,
        crs := df1.crs }

/-- The spatial extent of a collection on the vertex-set model: all the
vertices of all its geometries. -/
def extentPts (df : GeoDataFrame) : Geometry :=
  (df.rows.map Row.geom).flatten

theorem mem_interG (g h : Geometry) (p : Point) :
    p ∈ interG g h ↔ p ∈ g ∧ p ∈ h := by
  simp [interG, List.mem_filter]

theorem mem_intersectionRows (rows1 rows2 : List Row) (r : Row) :
    r ∈ intersectionRows rows1 rows2 ↔
    ∃ r1 ∈ rows1, ∃ r2 ∈ rows2,
      ¬(interG r1.geom r2.geom).isEmpty = true ∧
      r = { geom := interG r1.geom r2.geom, attrs := r1.attrs ++ r2.attrs } := by
  constructor
  · intro hmem
    rw [intersectionRows, List.mem_flatMap] at hmem
    obtain ⟨r1, h1, hmem⟩ := hmem
    rw [List.mem_filterMap] at hmem
    obtain ⟨r2, h2, hf⟩ := hmem
    by_cases hg : (interG r1.geom r2.geom).isEmpty = true
    · rw [if_pos hg] at hf
      cases hf
    · rw [if_neg hg] at hf
      exact ⟨r1, h1, r2, h2, hg, (Option.some.inj hf).symm⟩
  · rintro ⟨r1, h1, r2, h2, hg, rfl⟩
    rw [intersectionRows, List.mem_flatMap]
    refine ⟨r1, h1, List.mem_filterMap.mpr ⟨r2, h2, ?_⟩⟩
    rw [if_neg hg]

theorem intersectionRows_singleton (rows1 : List Row) (b : Row) :
    intersectionRows rows1 [b] =
    rows1.filterMap (fun r =>
      if (interG r.geom b.geom).isEmpty then none
      else some { geom := interG r.geom b.geom, attrs := r.attrs ++ b.attrs }) := by
  induction rows1 with
  | nil => rfl
  | cons r rs ih =>
      rw [show intersectionRows (r :: rs) [b]
          = ([b].filterMap (fun r2 =>
              if (interG r.geom r2.geom).isEmpty = true then none
              else some { geom := interG r.geom r2.geom,
                          attrs := r.attrs ++ r2.attrs }))
            ++ intersectionRows rs [b] from rfl,
        ih]
      cases hg : (interG r.geom b.geom).isEmpty with
      | true =>
          rw [List.isEmpty_iff] at hg
          simp [List.filterMap_cons, hg]
      | false =>
          rw [List.isEmpty_eq_false] at hg
          simp [List.filterMap_cons, hg]

/-- C4: on two collections in the same CRS, every vertex of every
geometry the intersection overlay outputs lies in the spatial extent of
both input collections; and against a single-polygon boundary layer the
intersection returns exactly the rows of the grid whose geometry
overlaps the boundary, each clipped to its common part with the
boundary. -/
theorem overlay_intersection_spec :
    (∀ (df1 df2 : GeoDataFrame), df1.crs = df2.crs →
      ∀ r ∈ (overlay df1 df2 OverlayHow.intersection).rows,
        ∀ p ∈ r.geom, p ∈ extentPts df1 ∧ p ∈ extentPts df2) ∧
    (∀ (df1 df2 : GeoDataFrame) (b : Row), df1.crs = df2.crs →
      df2.rows = [b] →
      (overlay df1 df2 OverlayHow.intersection).rows =
        df1.rows.filterMap (fun r =>
          if (interG r.geom b.geom).isEmpty then none
          else some { geom := interG r.geom b.geom, attrs := r.attrs ++ b.attrs })) := by
  constructor
  · intro df1 df2 _ r hr p hp
    have hm := (mem_intersectionRows df1.rows df2.rows r).mp hr
    obtain ⟨r1, h1, r2, h2, -, rfl⟩ := hm
    have hpg := (mem_interG r1.geom r2.geom p).mp hp
    constructor
    · exact List.mem_flatten.mpr ⟨r1.geom, List.mem_map.mpr ⟨r1, h1, rfl⟩, hpg.1⟩
    · exact List.mem_flatten.mpr ⟨r2.geom, List.mem_map.mpr ⟨r2, h2, rfl⟩, hpg.2⟩
  · intro df1 df2 b _ hrows
    show intersectionRows df1.rows df2.rows = _
    rw [hrows, intersectionRows_singleton]

/-- C7: each row the overlay outputs for a contributing pair carries the
merged attribute mapping of the pair: its attributes are those of the
contributing row of the first collection followed by those of the
contributing row of the second, so the attribute columns of both input
collections are carried into the result. -/
theorem overlay_attrs_union (df1 df2 : GeoDataFrame) :
    ∀ r ∈ (overlay df1 df2 OverlayHow.intersection).rows,
      ∃ r1 ∈ df1.rows, ∃ r2 ∈ df2.rows,
        r.attrs = r1.attrs ++ r2.attrs ∧
        r.attrs.map Prod.fst = r1.attrs.map Prod.fst ++ r2.attrs.map Prod.fst := by
  intro r hr
  have hm := (mem_intersectionRows df1.rows df2.rows r).mp hr
  obtain ⟨r1, h1, r2, h2, -, rfl⟩ := hm
  exact ⟨r1, h1, r2, h2, rfl, by simp⟩

/-- A two-cell sample of the travel time grid of the geometric
operations notebook. -/
def gridSample : GeoDataFrame :=
  { rows := [{ geom := [((0 : Rat), (0 : Rat)), ((1 : Rat), (0 : Rat))],
               attrs := [("car_r_t", 15)] },
             { geom := [((5 : Rat), (5 : Rat))],
               attrs := [("car_r_t", 20)] }],
    crs := some (CRS.epsg 3067) }

/-- The single-polygon Helsinki boundary layer of the same notebook. -/
def helsinkiBorder : GeoDataFrame :=
  { rows := [{ geom := [((0 : Rat), (0 : Rat)), ((2 : Rat), (0 : Rat))],
               attrs := [("NAME", 1)] }],
    crs := some (CRS.epsg 3067) }

/-- Witness for C7: the one row the intersection overlay of the grid
sample with the Helsinki boundary outputs carries the attributes of both
contributing rows. -/
theorem overlay_attrs_union_witness :
    ∃ r1 ∈ gridSample.rows, ∃ r2 ∈ helsinkiBorder.rows,
      ({ geom := [((0 : Rat), (0 : Rat))],
         attrs := [("car_r_t", (15 : Int)), ("NAME", 1)] } : Row).attrs
          = r1.attrs ++ r2.attrs ∧
      ({ geom := [((0 : Rat), (0 : Rat))],
         attrs := [("car_r_t", (15 : Int)), ("NAME", 1)] } : Row).attrs.map Prod.fst
          = r1.attrs.map Prod.fst ++ r2.attrs.map Prod.fst :=
  overlay_attrs_union gridSample helsinkiBorder
    { geom := [((0 : Rat), (0 : Rat))],
      attrs := [("car_r_t", (15 : Int)), ("NAME", 1)] }
    (by decide)

/- ------------------------------------------------------------------
Aggregation (`geopandas.dissolve`,
`src/L4/1-geometric-operations.ipynb`): grouping by `car_r_t`.
------------------------------------------------------------------ -/

/-- The value a record holds for the grouping attribute; records with
the attribute absent group together under `none`. -/
def keyOf (k : String) (r : Row) : Option Int :=
  r.attrs.lookup k

/-- The distinct values of the grouping attribute in the collection, in
order of first appearance. -/
def keyValues (df : GeoDataFrame) (k : String) : List (Option Int) :=
  (df.rows.map (keyOf k)).dedup

/-- A row of a dissolved collection: the grouping attribute's value is
the row key, separate from the plain attribute columns. -/
structure DissolvedRow where
  key : Option Int
  geom : Geometry
  attrs : List (String × Int)
  deriving DecidableEq

/-- Modelled from the spec: `dissolve` groups records by the value of
the grouping attribute, merges each group's geometries into their union,
keeps the first record's remaining attributes, and promotes the grouping
attribute to the row key, removing it from the plain columns (spec,
section 4.3). -/
def dissolve (df : GeoDataFrame) (k : String) : List DissolvedRow :=
  (keyValues df k).map (fun v =>
    let grp := df.rows.filter (fun r => decide (keyOf k r = v))
    { key := v,
      geom := (grp.map Row.geom).flatten,
      attrs := match grp with
        | [] => []
        | r :: _ => r.attrs.filter (fun p => decide (p.1 ≠ k)) })

/-- C3: dissolving by an attribute returns exactly one row per distinct
value of that attribute in the input, with the distinct values promoted
to the row keys; each output row's geometry is the union (on the
vertex-set model, the concatenation) of the geometries of all input
records sharing its key value; and the grouping attribute no longer
appears among the plain attribute columns of any output row. -/
theorem dissolve_spec :
    ∀ (df : GeoDataFrame) (k : String),
      (dissolve df k).length = (keyValues df k).length ∧
      (dissolve df k).map DissolvedRow.key = keyValues df k ∧
      (∀ row ∈ dissolve df k,
        row.geom =
          ((df.rows.filter (fun r => decide (keyOf k r = row.key))).map
            Row.geom).flatten ∧
        ∀ p ∈ row.attrs, p.1 ≠ k) := by
  intro df k
  refine ⟨List.length_map _ _, ?_, ?_⟩
  · rw [dissolve, List.map_map]
    exact List.map_id _
  · intro row hrow
    rw [dissolve, List.mem_map] at hrow
    obtain ⟨v, hv, rfl⟩ := hrow
    constructor
    · rfl
    · intro p hp
      simp only at hp
      cases hgrp : df.rows.filter (fun r => decide (keyOf k r = v)) with
      | nil =>
          rw [hgrp] at hp
          cases hp
      | cons r rest =>
          rw [hgrp] at hp
          simp only [List.mem_filter] at hp
          exact of_decide_eq_true hp.2

/- ------------------------------------------------------------------
Simplifier (shapely `simplify`,
`src/L4/1-geometric-operations.ipynb`): `data.simplify(tolerance=20000)`.
------------------------------------------------------------------ -/

/-- Squared Euclidean distance between two points (kept squared so the
model stays within the rationals). -/
def distSq (p q : Point) : Rat :=
  (p.1 - q.1) ^ 2 + (p.2 - q.2) ^ 2

theorem distSq_nonneg (p q : Point) : 0 ≤ distSq p q :=
  add_nonneg (sq_nonneg _) (sq_nonneg _)

/-- Modelled from the spec: the vertex-reduction pass of the external
Simplifier, as radial-distance reduction: walk the vertex sequence and
drop a vertex lying strictly within the tolerance of the last kept
vertex; the final vertex is always kept.  `tol2` is the squared
tolerance. -/
def simplifyAux (tol2 : Rat) (last : Point) : List Point → List Point
  | [] => []
  | [p] => [p]
  | p :: q :: rest =>
      if distSq last p < tol2 then simplifyAux tol2 last (q :: rest)
      else p :: simplifyAux tol2 p (q :: rest)

/-- Modelled from the spec: `geometry.simplify(tolerance)` reduces the
vertex count of a geometry within the tolerance distance, in the linear
unit of the active CRS (spec, section 4.4). -/
def simplify (g : Geometry) (tolerance : Rat) : Geometry :=
  match g with
  | [] => []
  | p :: rest => p :: simplifyAux (tolerance * tolerance) p rest

theorem simplifyAux_zero (l : List Point) :
    ∀ last : Point, simplifyAux 0 last l = l := by
  induction l with
  | nil => intro last; rfl
  | cons p tail ih =>
      intro last
      cases tail with
      | nil => rfl
      | cons q rest =>
          rw [simplifyAux, if_neg (not_lt.mpr (distSq_nonneg last p))]
          rw [ih p]

theorem simplifyAux_length (l : List Point) :
    ∀ (tol2 : Rat) (last : Point),
      (simplifyAux tol2 last l).length ≤ l.length := by
  induction l with
  | nil => intro tol2 last; exact Nat.le_refl 0
  | cons p tail ih =>
      intro tol2 last
      cases tail with
      | nil => exact Nat.le_refl 1
      | cons q rest =>
          rw [simplifyAux]
          by_cases h : distSq last p < tol2
          · rw [if_pos h]
            exact Nat.le_trans (ih tol2 last) (Nat.le_succ _)
          · rw [if_neg h]
            exact Nat.succ_le_succ (ih tol2 p)

theorem simplifyAux_close (l : List Point) :
    ∀ (tol2 : Rat) (last : Point), ∀ x ∈ l,
      x ∈ simplifyAux tol2 last l ∨
      distSq last x < tol2 ∨
      ∃ q ∈ simplifyAux tol2 last l, distSq q x < tol2 := by
  induction l with
  | nil => intro tol2 last x hx; cases hx
  | cons p tail ih =>
      intro tol2 last x hx
      cases tail with
      | nil =>
          rcases List.mem_cons.mp hx with h | h
          · subst h; exact Or.inl (List.mem_singleton.mpr rfl)
          · cases h
      | cons q rest =>
          rw [simplifyAux]
          by_cases hdrop : distSq last p < tol2
          · rw [if_pos hdrop]
            rcases List.mem_cons.mp hx with h | h
            · subst h; exact Or.inr (Or.inl hdrop)
            · exact ih tol2 last x h
          · rw [if_neg hdrop]
            rcases List.mem_cons.mp hx with h | h
            · subst h; exact Or.inl (List.mem_cons_self _ _)
            · rcases ih tol2 p x h with h' | h' | h'
              · exact Or.inl (List.mem_cons_of_mem _ h')
              · exact Or.inr (Or.inr ⟨p, List.mem_cons_self _ _, h'⟩)
              · obtain ⟨q', hq', hd⟩ := h'
                exact Or.inr (Or.inr ⟨q', List.mem_cons_of_mem _ hq', hd⟩)

/-- C8: simplifying with tolerance 0 returns the input geometry
unchanged; for every tolerance the result's vertex count is no greater
than the input's; and for every positive tolerance every input vertex
either survives or lies strictly within the tolerance (stated on squared
distances) of a surviving vertex, so the result deviates from the input
by at most the tolerance.  Nothing stronger (such as topology
preservation) is claimed. -/
theorem simplify_spec :
    ∀ (g : Geometry) (tolerance : Rat),
      simplify g 0 = g ∧
      (simplify g tolerance).length ≤ g.length ∧
      (0 < tolerance →
        ∀ x ∈ g, x ∈ simplify g tolerance ∨
          ∃ q ∈ simplify g tolerance, distSq q x < tolerance * tolerance) := by
  intro g tolerance
  refine ⟨?_, ?_, ?_⟩
  · cases g with
    | nil => rfl
    | cons p rest =>
        rw [simplify]
        rw [show (0 : Rat) * 0 = 0 from mul_zero 0, simplifyAux_zero rest p]
  · cases g with
    | nil => exact Nat.le_refl 0
    | cons p rest =>
        exact Nat.succ_le_succ (simplifyAux_length rest _ p)
  · intro _ x hx
    cases g with
    | nil => cases hx
    | cons p rest =>
        rcases List.mem_cons.mp hx with h | h
        · subst h
          exact Or.inl (List.mem_cons_self _ _)
        · rcases simplifyAux_close rest (tolerance * tolerance) p x h with h' | h' | h'
          · exact Or.inl (List.mem_cons_of_mem _ h')
          · exact Or.inr ⟨p, List.mem_cons_self _ _, h'⟩
          · obtain ⟨q', hq', hd⟩ := h'
            exact Or.inr ⟨q', List.mem_cons_of_mem _ hq', hd⟩
